import Mathlib

/-!
Shallow embedding of the stock-tracker FIFO lot-accounting core
(`portfolio.py`, `tax_config.py`, and the per-lot tax classification in
`stock_tracker.py`).

Modelling conventions:
* Quantities and prices (Python floats holding decimal amounts) are
  modelled as `ℚ`.
* Calendar dates are modelled as `ℤ` day numbers.  The source stores dates
  as ISO `YYYY-MM-DD` strings, sorts them lexicographically
  (`portfolio.py` line 149) and subtracts parsed dates to obtain day
  counts (`stock_tracker.py` line 203); for well-formed ISO strings the
  lexicographic order coincides with the chronological order, so a single
  totally ordered day-number type is order- and difference-faithful.
* A transaction dict is a record; the optionally-absent `'type'` key is an
  `Option String` (`tx.get('type', 'BUY')` becomes `Option.getD`).
* `self.holdings` (a JSON object: insertion-ordered dict from ticker to
  transaction list) is an insertion-ordered association list.
* Python's stable `sorted` is `List.insertionSort` with a `≤`-style key
  comparison, which is stable.
-/

namespace StockTracker

/-- A transaction record, mirroring the dict built in
`Portfolio.add_stock` / `remove_stock`:
`{'shares': .., 'price_paid': .., 'date': .., 'type': ..}`.
`txType = none` models a legacy stored record lacking the `'type'` key. -/
structure Tx where
  shares : ℚ
  price_paid : ℚ
  date : ℤ
  txType : Option String
deriving DecidableEq

/-- A lot dict as built in `Portfolio.get_remaining_lots`:
`{'shares': .., 'price': .., 'date': ..}`. -/
structure Lot where
  shares : ℚ
  price : ℚ
  date : ℤ
deriving DecidableEq

/-- `tx.get('type', 'BUY') == 'BUY'`: the branch condition used by
`get_net_shares`, `get_remaining_lots` and `get_holding`. -/
def txIsBuy (tx : Tx) : Bool :=
  tx.txType.getD "BUY" == "BUY"

/-- Python `str.upper()` (ASCII case mapping, as used on tickers). -/
def upper (s : String) : String :=
  ⟨s.data.map Char.toUpper⟩

/-- `self.holdings`: insertion-ordered map from ticker to its transaction
list. -/
abbrev Holdings := List (String × List Tx)

/-- `self.holdings.get(ticker)`, with a missing key collapsed to the empty
transaction list (the source treats `None` and `[]` alike via
`if not txs`). -/
def lookup (h : Holdings) (t : String) : List Tx :=
  match h.find? (fun p => p.1 == t) with
  | some p => p.2
  | none => []

/-- Dict update used by `add_stock` / `remove_stock`:
`self.holdings[ticker].append(tx)` when the key exists, otherwise
`self.holdings[ticker] = [tx]` (new key goes to the end, preserving
insertion order). -/
def appendTx : Holdings → String → Tx → Holdings
  | [], t, tx => [(t, [tx])]
  | (k, txs) :: rest, t, tx =>
    if k == t then (k, txs ++ [tx]) :: rest
    else (k, txs) :: appendTx rest t tx

/-- `Portfolio.add_stock` (portfolio.py lines 28-38): uppercase the
ticker, build the transaction dict, append it.  There is no validation of
`shares`. -/
def addStock (h : Holdings) (ticker : String) (shares price_paid : ℚ)
    (date : ℤ) (transaction_type : String) : Holdings :=
  appendTx h (upper ticker) ⟨shares, price_paid, date, some transaction_type⟩

/-- `Portfolio.get_net_shares` loop body (portfolio.py lines 65-71). -/
def netOfTxs (txs : List Tx) : ℚ :=
  txs.foldl (fun acc tx => if txIsBuy tx then acc + tx.shares else acc - tx.shares) 0

/-- `Portfolio.get_net_shares` (portfolio.py lines 59-71). -/
def getNetShares (h : Holdings) (ticker : String) : ℚ :=
  netOfTxs (lookup h (upper ticker))

/-- The data carried by the `ValueError` raised in
`Portfolio.remove_stock`: requested and available share counts. -/
structure InsufficientShares where
  requested : ℚ
  available : ℚ
deriving DecidableEq

/-- `Portfolio.remove_stock` (portfolio.py lines 40-57): check
`get_net_shares(ticker) < shares` and raise before anything is appended or
saved; otherwise append the SELL transaction. -/
def removeStock (h : Holdings) (ticker : String) (shares price_sold : ℚ)
    (date : ℤ) : Except InsufficientShares Holdings :=
  let t := upper ticker
  let current := getNetShares h t
  if current < shares then Except.error ⟨shares, current⟩
  else Except.ok (appendTx h t ⟨shares, price_sold, date, some "SELL"⟩)

/-- The store state after a call that may raise: a raised exception leaves
`self.holdings` as it was (the raise in `remove_stock` happens before the
append and the save). -/
def stateAfter (h : Holdings) : Except InsufficientShares Holdings → Holdings
  | Except.ok h2 => h2
  | Except.error _ => h

/-- The inner FIFO consumption loop of `get_remaining_lots`
(portfolio.py lines 165-180): walk the open lots in order, dropping fully
consumed lots, shrinking the first partially consumed one, and keeping the
rest once the outstanding amount reaches 0. -/
def consumeLots : List Lot → ℚ → List Lot
  | [], _ => []
  | lot :: rest, toSell =>
    if toSell ≤ 0 then lot :: consumeLots rest toSell
    else if lot.shares ≤ toSell then consumeLots rest (toSell - lot.shares)
    else { lot with shares := lot.shares - toSell } :: consumeLots rest 0

/-- One iteration of the outer loop of `get_remaining_lots`
(portfolio.py lines 154-180): a BUY appends a fresh lot, anything else is
treated as a SELL and consumed FIFO. -/
def applyTx (lots : List Lot) (tx : Tx) : List Lot :=
  if txIsBuy tx then lots ++ [⟨tx.shares, tx.price_paid, tx.date⟩]
  else consumeLots lots tx.shares

/-- `sorted(txs, key=lambda tx: tx['date'])` (portfolio.py line 149):
Python's stable sort by date; `insertionSort` with `≤` on the key is
stable. -/
def sortByDate (txs : List Tx) : List Tx :=
  List.insertionSort (fun a b => a.date ≤ b.date) txs

/-- The body of `Portfolio.get_remaining_lots` on a given transaction
list (portfolio.py lines 148-182). -/
def resolveLots (txs : List Tx) : List Lot :=
  (sortByDate txs).foldl applyTx []

/-- `Portfolio.get_remaining_lots` (portfolio.py lines 137-182). -/
def getRemainingLots (h : Holdings) (ticker : String) : List Lot :=
  resolveLots (lookup h (upper ticker))

/-- `sum(lot['shares'] for lot in lots)` (portfolio.py line 83). -/
def lotShares (lots : List Lot) : ℚ :=
  (lots.map Lot.shares).sum

/-- `sum(lot['shares'] * lot['price'] for lot in lots)`
(portfolio.py line 84). -/
def lotCost (lots : List Lot) : ℚ :=
  (lots.map (fun lot => lot.shares * lot.price)).sum

/-- `total_cost / total_shares if total_shares > 0 else 0`
(portfolio.py line 85). -/
def lotAvgPrice (lots : List Lot) : ℚ :=
  if 0 < lotShares lots then lotCost lots / lotShares lots else 0

/-- A `{'shares': .., 'avg_price': ..}` position record, as returned by
`get_holding` and stored per ticker by `get_portfolio`. -/
structure Position where
  shares : ℚ
  avg_price : ℚ
deriving DecidableEq

/-- The accumulation loop of `Portfolio.get_holding`
(portfolio.py lines 105-118): totals of buy shares, buy cost, and sell
shares over all transactions. -/
def buyStats (txs : List Tx) : ℚ × ℚ × ℚ :=
  txs.foldl
    (fun acc tx =>
      if txIsBuy tx then (acc.1 + tx.shares, acc.2.1 + tx.shares * tx.price_paid, acc.2.2)
      else (acc.1, acc.2.1, acc.2.2 + tx.shares))
    (0, 0, 0)

/-- `Portfolio.get_holding` (portfolio.py lines 97-126): `None` when the
ticker has no transactions or the net share count is ≤ 0, otherwise net
shares together with `total_buy_cost / total_buy_shares` (0-guarded). -/
def getHolding (h : Holdings) (ticker : String) : Option Position :=
  let txs := lookup h (upper ticker)
  if txs = [] then none
  else
    let s := buyStats txs
    let net := s.1 - s.2.2
    if net ≤ 0 then none
    else some ⟨net, if 0 < s.1 then s.2.1 / s.1 else 0⟩

/-- One row of the `get_portfolio` result: ticker with its aggregated
position. -/
structure PortEntry where
  ticker : String
  shares : ℚ
  avg_price : ℚ
deriving DecidableEq

/-- The `result` dict built by the loop of `Portfolio.get_portfolio`
(portfolio.py lines 75-87), in key insertion order: one entry per stored
ticker whose FIFO resolution leaves at least one lot. -/
def portfolioEntries (h : Holdings) : List PortEntry :=
  h.filterMap (fun p =>
    let lots := getRemainingLots h p.1
    if lots = [] then none
    else some ⟨p.1, lotShares lots, lotAvgPrice lots⟩)

/-- Pair each entry with its position in the insertion-ordered `result`
dict. -/
def indexed : Nat → List PortEntry → List (Nat × PortEntry)
  | _, [] => []
  | i, e :: rest => (i, e) :: indexed (i + 1) rest

/-- The order produced by `sorted(result.items(), key=shares,
reverse=True)` (portfolio.py line 90): larger share counts first; Python's
sort is stable, so equal share counts keep their original dict-insertion
order, i.e. ascending index. -/
def portRel (a b : Nat × PortEntry) : Prop :=
  b.2.shares < a.2.shares ∨ (a.2.shares = b.2.shares ∧ a.1 ≤ b.1)

instance portRelDecidable : DecidableRel portRel := fun a b => by
  unfold portRel; infer_instance

instance portRelTotal : IsTotal (Nat × PortEntry) portRel where
  total a b := by
    rcases lt_trichotomy a.2.shares b.2.shares with hlt | heq | hgt
    · exact Or.inr (Or.inl hlt)
    · rcases Nat.le_total a.1 b.1 with hle | hle
      · exact Or.inl (Or.inr ⟨heq, hle⟩)
      · exact Or.inr (Or.inr ⟨heq.symm, hle⟩)
    · exact Or.inl (Or.inl hgt)

instance portRelTrans : IsTrans (Nat × PortEntry) portRel where
  trans a b c hab hbc := by
    rcases hab with hab | ⟨hab, hab2⟩
    · rcases hbc with hbc | ⟨hbc, _⟩
      · exact Or.inl (lt_trans hbc hab)
      · exact Or.inl (hbc ▸ hab)
    · rcases hbc with hbc | ⟨hbc, hbc2⟩
      · exact Or.inl (hab ▸ hbc)
      · exact Or.inr ⟨hab.trans hbc, hab2.trans hbc2⟩

/-- The sorted rows of `Portfolio.get_portfolio`, each still carrying its
original insertion index.  A stable descending sort by share count equals
the (unique) sort under the total order `portRel` (share count descending,
insertion index ascending as the tie-break). -/
def snapshotIdx (h : Holdings) : List (Nat × PortEntry) :=
  List.insertionSort portRel (indexed 0 (portfolioEntries h))

/-- `Portfolio.get_portfolio` (portfolio.py lines 73-91): the entries of
the `result` dict, stably sorted by share count descending. -/
def portfolioSnapshot (h : Holdings) : List PortEntry :=
  (snapshotIdx h).map Prod.snd

/-- `Portfolio.get_remaining_lots` viewed as a call against the store
state: the method reads `self.holdings`, assigns only to local variables
and to lot dicts freshly created inside the call (portfolio.py lines
152-180), and never writes `self.holdings` or a stored transaction
record, so the post-call store equals the pre-call store. -/
def getRemainingLotsCall (h : Holdings) (ticker : String) : List Lot × Holdings :=
  (getRemainingLots h ticker, h)

/-- The tax configuration record (`tax_config.py`,
`TaxConfig.get_default_config` keys `short_term_federal`,
`long_term_federal`, `state`, `nii`; rates are percentages). -/
structure TaxConfig where
  short_term_federal : ℚ
  long_term_federal : ℚ
  state : ℚ
  nii : Bool
deriving DecidableEq

/-- `TaxConfig.get_default_config` (tax_config.py lines 22-29): all-zero
rates, no surtax. -/
def defaultTaxConfig : TaxConfig :=
  ⟨0, 0, 0, false⟩

/-- The dict returned by `calculate_short_term_tax_on_gains` /
`calculate_long_term_tax_on_gains` (tax_config.py lines 84-110). -/
structure TaxBreakdown where
  federal : ℚ
  taxState : ℚ
  nii : ℚ
  total : ℚ
  rate_type : String
  federal_rate_used : ℚ
deriving DecidableEq

/-- `TaxConfig.calculate_short_term_tax_on_gains`
(tax_config.py lines 84-96). -/
def calculate_short_term_tax_on_gains (cfg : TaxConfig) (gains : ℚ) : TaxBreakdown :=
  let federal_rate := cfg.short_term_federal
  let federal_tax := gains * (federal_rate / 100)
  let state_tax := gains * (cfg.state / 100)
  let nii_tax := if cfg.nii then gains * (38 / 1000) else 0
  ⟨federal_tax, state_tax, nii_tax, federal_tax + state_tax + nii_tax, "short-term", federal_rate⟩

/-- `TaxConfig.calculate_long_term_tax_on_gains`
(tax_config.py lines 98-110). -/
def calculate_long_term_tax_on_gains (cfg : TaxConfig) (gains : ℚ) : TaxBreakdown :=
  let federal_rate := cfg.long_term_federal
  let federal_tax := gains * (federal_rate / 100)
  let state_tax := gains * (cfg.state / 100)
  let nii_tax := if cfg.nii then gains * (38 / 1000) else 0
  ⟨federal_tax, state_tax, nii_tax, federal_tax + state_tax + nii_tax, "long-term", federal_rate⟩

/-- Holding-period classification used by `show_portfolio`
(stock_tracker.py lines 203-211): long-term exactly when
`(today - lot_date).days > 365`. -/
inductive HoldingClass where
  | shortTerm
  | longTerm
deriving DecidableEq

/-- The classification decision of `show_portfolio`
(stock_tracker.py lines 203-211): `holding_days = (today - lot_date).days`
compared with the strict threshold `> 365`. -/
def classifyLot (lotDate today : ℤ) : HoldingClass :=
  if 365 < today - lotDate then HoldingClass.longTerm else HoldingClass.shortTerm

/-- `lot_gain = lot_value - lot_cost` for one remaining lot at the current
price (stock_tracker.py lines 193-196). -/
def lotGain (currentPrice : ℚ) (lot : Lot) : ℚ :=
  lot.shares * currentPrice - lot.shares * lot.price

/-- The per-lot after-tax contribution of the `show_portfolio` loop
(stock_tracker.py lines 192-214): a positive gain is taxed at the
long-term rates when held strictly more than 365 days and at the
short-term rates otherwise; a non-positive gain is passed through
untaxed. -/
def lotAfterTax (cfg : TaxConfig) (today : ℤ) (currentPrice : ℚ) (lot : Lot) : ℚ :=
  let g := lotGain currentPrice lot
  if 0 < g then
    if 365 < today - lot.date then g - (calculate_long_term_tax_on_gains cfg g).total
    else g - (calculate_short_term_tax_on_gains cfg g).total
  else g

/-- No-oversell condition on a date-sorted transaction list, given the
share total already held in open lots: every SELL is nonnegative and does
not exceed what the lots built so far can supply.  This is the
precondition under which the FIFO consumption loop never runs out of lots
(spec §4.2 treats a shortfall during resolution as an invariant
violation). -/
def coveredFrom : ℚ → List Tx → Bool
  | _, [] => true
  | avail, tx :: rest =>
    if txIsBuy tx then coveredFrom (avail + tx.shares) rest
    else decide (0 ≤ tx.shares) && decide (tx.shares ≤ avail) && coveredFrom (avail - tx.shares) rest

/-- A stored transaction with the `'type'` key missing, made explicit as
`'BUY'`; used to state the backward-compatibility default. -/
def normalizeTx (tx : Tx) : Tx :=
  { tx with txType := some (tx.txType.getD "BUY") }

/-- Normalize every stored transaction of every ticker. -/
def normalizeHoldings (h : Holdings) : Holdings :=
  h.map (fun p => (p.1, p.2.map normalizeTx))

end StockTracker

namespace StockTracker

/-- The signed share contribution of a transaction: positive for BUY,
negative otherwise. -/
def txSigned (tx : Tx) : ℚ :=
  if txIsBuy tx then tx.shares else -tx.shares

lemma foldl_net_eq (txs : List Tx) : ∀ a : ℚ,
    txs.foldl (fun acc tx => if txIsBuy tx then acc + tx.shares else acc - tx.shares) a
      = a + (txs.map txSigned).sum := by
  induction txs with
  | nil => intro a; simp
  | cons tx rest ih =>
    intro a
    by_cases hb : txIsBuy tx
    · simp only [List.foldl_cons, List.map_cons, List.sum_cons, if_pos hb, ih, txSigned]
      ring
    · simp only [List.foldl_cons, List.map_cons, List.sum_cons, if_neg hb, ih, txSigned]
      ring

lemma netOfTxs_eq_sum (txs : List Tx) : netOfTxs txs = (txs.map txSigned).sum := by
  simpa using foldl_net_eq txs 0

lemma netOfTxs_perm {txs1 txs2 : List Tx} (hp : txs1.Perm txs2) :
    netOfTxs txs1 = netOfTxs txs2 := by
  rw [netOfTxs_eq_sum, netOfTxs_eq_sum]
  exact (hp.map txSigned).sum_eq

lemma consumeLots_of_nonpos {toSell : ℚ} (hts : toSell ≤ 0) :
    ∀ lots : List Lot, consumeLots lots toSell = lots := by
  intro lots
  induction lots with
  | nil => rfl
  | cons lot rest ih => simp [consumeLots, if_pos hts, ih]

lemma lotShares_append (l1 l2 : List Lot) :
    lotShares (l1 ++ l2) = lotShares l1 + lotShares l2 := by
  simp [lotShares]

lemma lotShares_consumeLots : ∀ (lots : List Lot) (toSell : ℚ),
    0 ≤ toSell → toSell ≤ lotShares lots →
    lotShares (consumeLots lots toSell) = lotShares lots - toSell := by
  intro lots
  induction lots with
  | nil =>
    intro toSell h0 hle
    have : toSell = 0 := le_antisymm (by simpa [lotShares] using hle) h0
    simp [consumeLots, lotShares, this]
  | cons lot rest ih =>
    intro toSell h0 hle
    by_cases hz : toSell ≤ 0
    · have h00 : toSell = 0 := le_antisymm hz h0
      subst h00
      simp [consumeLots, consumeLots_of_nonpos le_rfl rest]
    · rw [consumeLots, if_neg hz]
      by_cases hsh : lot.shares ≤ toSell
      · rw [if_pos hsh]
        have hrest : toSell - lot.shares ≤ lotShares rest := by
          have : lotShares (lot :: rest) = lot.shares + lotShares rest := by
            simp [lotShares]
          linarith [hle, this.symm.le]
        rw [ih (toSell - lot.shares) (by linarith) hrest]
        simp [lotShares]
        ring
      · rw [if_neg hsh]
        have : consumeLots rest 0 = rest := consumeLots_of_nonpos le_rfl rest
        simp [this, lotShares]
        ring

lemma lotShares_foldl_applyTx (txs : List Tx) : ∀ lots : List Lot,
    coveredFrom (lotShares lots) txs = true →
    lotShares (txs.foldl applyTx lots) = lotShares lots + (txs.map txSigned).sum := by
  induction txs with
  | nil => intro lots _; simp
  | cons tx rest ih =>
    intro lots hc
    by_cases hb : txIsBuy tx
    · have happ : applyTx lots tx = lots ++ [⟨tx.shares, tx.price_paid, tx.date⟩] := by
        simp [applyTx, hb]
      have hc2 : coveredFrom (lotShares (lots ++ [⟨tx.shares, tx.price_paid, tx.date⟩])) rest
          = true := by
        rw [lotShares_append]
        simpa [coveredFrom, hb, lotShares] using hc
      rw [List.foldl_cons, happ, ih _ hc2, lotShares_append]
      simp [lotShares, txSigned, hb]
      ring
    · rw [coveredFrom, if_neg hb] at hc
      obtain ⟨h1, hrest⟩ := Bool.and_eq_true_iff.mp hc
      obtain ⟨h0, hle⟩ := Bool.and_eq_true_iff.mp h1
      have h0q : (0 : ℚ) ≤ tx.shares := of_decide_eq_true h0
      have hleq : tx.shares ≤ lotShares lots := of_decide_eq_true hle
      have hcons : applyTx lots tx = consumeLots lots tx.shares := by
        simp [applyTx, hb]
      have hsum := lotShares_consumeLots lots tx.shares h0q hleq
      have hc2 : coveredFrom (lotShares (consumeLots lots tx.shares)) rest = true := by
        rw [hsum]; exact hrest
      rw [List.foldl_cons, hcons, ih _ hc2, hsum]
      simp [txSigned, hb]
      ring

/-- Sanity example: FIFO resolution on a buy-sell log. -/
example :
    resolveLots
      [⟨10, 10, 1, some "BUY"⟩, ⟨10, 20, 2, some "BUY"⟩, ⟨15, 5, 3, some "SELL"⟩] =
      [⟨5, 20, 2⟩] := by
  norm_num [resolveLots, sortByDate, applyTx, consumeLots, txIsBuy,
    (show ("SELL" : String) ≠ "BUY" by decide)]

example : upper "aapl" = "AAPL" := by decide

example :
    getNetShares [("AAPL", [⟨10, 10, 1, some "BUY"⟩, ⟨4, 2, 2, some "SELL"⟩])] "aapl" = 6 := by
  norm_num [getNetShares, netOfTxs, lookup, txIsBuy,
    (show upper "aapl" = "AAPL" by decide), (show ("SELL" : String) ≠ "BUY" by decide)]

example :
    portfolioSnapshot
      [("A", [⟨1, 10, 1, some "BUY"⟩]), ("B", [⟨3, 10, 1, some "BUY"⟩])] =
      [⟨"B", 3, 10⟩, ⟨"A", 1, 10⟩] := by
  norm_num [portfolioSnapshot, snapshotIdx, portfolioEntries, indexed, portRel,
    getRemainingLots, resolveLots, sortByDate, applyTx, consumeLots, txIsBuy,
    lookup, lotShares, lotCost, lotAvgPrice,
    (show upper "A" = "A" by decide), (show upper "B" = "B" by decide),
    (show ("A" : String) ≠ "B" by decide), (show ("B" : String) ≠ "A" by decide)]

/-- C1 (as amended): whenever the date-sorted transaction log of a symbol
never sells more than the lots accumulated so far can supply (every SELL
quantity is nonnegative and covered by the running share balance), the
sum of the `shares` of the lots returned by `get_remaining_lots` equals
the signed transaction sum computed by `get_net_shares`.  Without that
condition the claim fails (see the counterexample): an undercovered SELL
is silently dropped by the consumption loop instead of reducing the
net. -/
theorem resolved_lots_sum_eq_net_shares (h : Holdings) (ticker : String)
    (hc : coveredFrom 0 (sortByDate (lookup h (upper ticker))) = true) :
    lotShares (getRemainingLots h ticker) = getNetShares h ticker := by
  have h0 : lotShares ([] : List Lot) = 0 := by simp [lotShares]
  have hfold := lotShares_foldl_applyTx (sortByDate (lookup h (upper ticker))) []
    (by rw [h0]; exact hc)
  rw [h0] at hfold
  have hperm : (sortByDate (lookup h (upper ticker))).Perm (lookup h (upper ticker)) :=
    List.perm_insertionSort _ _
  calc lotShares (getRemainingLots h ticker)
      = 0 + ((sortByDate (lookup h (upper ticker))).map txSigned).sum := hfold
    _ = netOfTxs (sortByDate (lookup h (upper ticker))) := by
        rw [netOfTxs_eq_sum]; ring
    _ = netOfTxs (lookup h (upper ticker)) := netOfTxs_perm hperm
    _ = getNetShares h ticker := rfl

/-- C1 witness: a covered buy-then-sell log where the amended theorem
applies and both sides equal 6. -/
theorem resolved_lots_sum_eq_net_shares_witness :
    coveredFrom 0 (sortByDate (lookup
      [("A", [⟨10, 10, 1, some "BUY"⟩, ⟨4, 12, 2, some "SELL"⟩])] (upper "A"))) = true ∧
    lotShares (getRemainingLots
      [("A", [⟨10, 10, 1, some "BUY"⟩, ⟨4, 12, 2, some "SELL"⟩])] "A") =
    getNetShares [("A", [⟨10, 10, 1, some "BUY"⟩, ⟨4, 12, 2, some "SELL"⟩])] "A" := by
  have hcov : coveredFrom 0 (sortByDate (lookup
      [("A", [⟨10, 10, 1, some "BUY"⟩, ⟨4, 12, 2, some "SELL"⟩])] (upper "A"))) = true := by
    norm_num [coveredFrom, sortByDate, txIsBuy, lookup,
      (show upper "A" = "A" by decide), (show ("SELL" : String) ≠ "BUY" by decide)]
  exact ⟨hcov, resolved_lots_sum_eq_net_shares _ "A" hcov⟩

/-- C1 counterexample: a SELL dated before any BUY (a state `remove_stock`
admits, since its guard only checks the total).  FIFO resolution drops the
uncovered sell, leaving 10 shares in lots, while the signed sum is 5. -/
theorem lots_sum_ne_net_shares_cex :
    lotShares (getRemainingLots
      [("A", [⟨10, 10, 2, some "BUY"⟩, ⟨5, 1, 1, some "SELL"⟩])] "A") ≠
    getNetShares [("A", [⟨10, 10, 2, some "BUY"⟩, ⟨5, 1, 1, some "SELL"⟩])] "A" := by
  norm_num [getRemainingLots, getNetShares, resolveLots, sortByDate, applyTx,
    consumeLots, txIsBuy, netOfTxs, lookup, lotShares,
    (show upper "A" = "A" by decide), (show ("SELL" : String) ≠ "BUY" by decide)]

end StockTracker

namespace StockTracker

lemma lookup_cons (k2 : String) (txs : List Tx) (rest : Holdings) (k : String) :
    lookup ((k2, txs) :: rest) k = if (k2 == k) = true then txs else lookup rest k := by
  by_cases hb : (k2 == k) = true
  · rw [if_pos hb]
    unfold lookup
    rw [List.find?_cons_of_pos _ (by simpa using hb)]
  · rw [if_neg hb]
    unfold lookup
    rw [List.find?_cons_of_neg _ (by simpa using hb)]

lemma lookup_appendTx (h : Holdings) (k : String) (tx : Tx) :
    lookup (appendTx h k tx) k = lookup h k ++ [tx] := by
  induction h with
  | nil => simp [appendTx, lookup]
  | cons p rest ih =>
    rcases p with ⟨k2, txs⟩
    by_cases hb : (k2 == k) = true
    · simp only [appendTx]
      rw [if_pos hb, lookup_cons, lookup_cons, if_pos hb, if_pos hb]
    · simp only [appendTx]
      rw [if_neg hb, lookup_cons, lookup_cons, if_neg hb, if_neg hb]
      exact ih

/-- C3 (as amended): `add_stock` performs no validation at all.  For every
quantity — including zero and negative ones — it unconditionally appends
the transaction record to the ticker's log (and the store is then saved),
so the spec's `ValidationError` on `quantity ≤ 0` does not exist and
non-positive quantities are recorded. -/
theorem add_stock_appends_unconditionally (h : Holdings) (ticker : String)
    (shares price_paid : ℚ) (date : ℤ) (transaction_type : String) :
    lookup (addStock h ticker shares price_paid date transaction_type) (upper ticker) =
      lookup h (upper ticker) ++ [⟨shares, price_paid, date, some transaction_type⟩] :=
  lookup_appendTx h (upper ticker) _

/-- C3 counterexample: `add_stock` with quantity -5 changes the store and
records a transaction whose quantity is not positive, contradicting
"fails with a validation error and records nothing". -/
theorem add_stock_negative_qty_recorded_cex :
    addStock [] "A" (-5) 10 0 "BUY" ≠ ([] : Holdings) ∧
    lookup (addStock [] "A" (-5) 10 0 "BUY") (upper "A") =
      [⟨-5, 10, 0, some "BUY"⟩] := by
  constructor
  · simp [addStock, appendTx]
  · simpa using lookup_appendTx [] (upper "A") ⟨-5, 10, 0, some "BUY"⟩

/-- C4: a sell strictly larger than the current net share count makes
`remove_stock` raise a `ValueError` carrying the requested and available
quantities, before any transaction is appended or saved: the store after
the failed call is the store before it. -/
theorem oversell_rejected_store_unchanged (h : Holdings) (ticker : String)
    (shares price_sold : ℚ) (date : ℤ)
    (hover : getNetShares h (upper ticker) < shares) :
    removeStock h ticker shares price_sold date =
      Except.error ⟨shares, getNetShares h (upper ticker)⟩ ∧
    stateAfter h (removeStock h ticker shares price_sold date) = h := by
  have herr : removeStock h ticker shares price_sold date =
      Except.error ⟨shares, getNetShares h (upper ticker)⟩ := by
    simp [removeStock, if_pos hover]
  exact ⟨herr, by rw [herr]; rfl⟩

/-- C4 witness: selling 10 out of a net position of 5 is rejected and the
store is left untouched. -/
theorem oversell_rejected_store_unchanged_witness :
    getNetShares [("A", [⟨5, 10, 1, some "BUY"⟩])] (upper "A") < 10 ∧
    removeStock [("A", [⟨5, 10, 1, some "BUY"⟩])] "A" 10 12 2 =
      Except.error ⟨10, getNetShares [("A", [⟨5, 10, 1, some "BUY"⟩])] (upper "A")⟩ ∧
    stateAfter [("A", [⟨5, 10, 1, some "BUY"⟩])]
      (removeStock [("A", [⟨5, 10, 1, some "BUY"⟩])] "A" 10 12 2) =
      [("A", [⟨5, 10, 1, some "BUY"⟩])] := by
  have hover : getNetShares [("A", [⟨5, 10, 1, some "BUY"⟩])] (upper "A") < 10 := by
    norm_num [getNetShares, netOfTxs, lookup, txIsBuy, (show upper "A" = "A" by decide)]
  have hthm := oversell_rejected_store_unchanged
    [("A", [⟨5, 10, 1, some "BUY"⟩])] "A" 10 12 2 hover
  exact ⟨hover, hthm.1, hthm.2⟩

/-- C6: `get_remaining_lots` is a pure read of the store.  Modelled as a
call returning the lots together with the post-call store state (the
method writes only local variables and lot dicts created within the call),
the post-call store equals the pre-call store, and a second call on that
unchanged store returns a lot list identical to the first call's. -/
theorem remaining_lots_pure_and_deterministic (h : Holdings) (ticker : String) :
    (getRemainingLotsCall h ticker).2 = h ∧
    (getRemainingLotsCall ((getRemainingLotsCall h ticker).2) ticker).1 =
      (getRemainingLotsCall h ticker).1 :=
  ⟨rfl, rfl⟩

/-- C9: for every gain amount and configuration, both tax calculators
return federal = gain × rate/100 (the short- or long-term federal rate
respectively), state = gain × state_rate/100, nii = gain × 3.8/100 exactly
when the surtax flag is set (0 otherwise), and total as the sum of the
three; and the spec's worked example (gain $1000, short-term federal 24%,
state 5%, no surtax) yields federal $240, state $50, nii $0, total $290. -/
theorem tax_breakdown_formulas (cfg : TaxConfig) (gains : ℚ) :
    (calculate_short_term_tax_on_gains cfg gains).federal =
        gains * cfg.short_term_federal / 100 ∧
    (calculate_long_term_tax_on_gains cfg gains).federal =
        gains * cfg.long_term_federal / 100 ∧
    (calculate_short_term_tax_on_gains cfg gains).taxState = gains * cfg.state / 100 ∧
    (calculate_long_term_tax_on_gains cfg gains).taxState = gains * cfg.state / 100 ∧
    (calculate_short_term_tax_on_gains cfg gains).nii =
        (if cfg.nii then gains * ((38 : ℚ) / 10) / 100 else 0) ∧
    (calculate_long_term_tax_on_gains cfg gains).nii =
        (if cfg.nii then gains * ((38 : ℚ) / 10) / 100 else 0) ∧
    (calculate_short_term_tax_on_gains cfg gains).total =
        (calculate_short_term_tax_on_gains cfg gains).federal +
        (calculate_short_term_tax_on_gains cfg gains).taxState +
        (calculate_short_term_tax_on_gains cfg gains).nii ∧
    (calculate_long_term_tax_on_gains cfg gains).total =
        (calculate_long_term_tax_on_gains cfg gains).federal +
        (calculate_long_term_tax_on_gains cfg gains).taxState +
        (calculate_long_term_tax_on_gains cfg gains).nii ∧
    calculate_short_term_tax_on_gains ⟨24, 15, 5, false⟩ 1000 =
      ⟨240, 50, 0, 290, "short-term", 24⟩ := by
  refine ⟨by simp [calculate_short_term_tax_on_gains]; ring,
    by simp [calculate_long_term_tax_on_gains]; ring,
    by simp [calculate_short_term_tax_on_gains]; ring,
    by simp [calculate_long_term_tax_on_gains]; ring,
    ?_, ?_,
    by simp [calculate_short_term_tax_on_gains],
    by simp [calculate_long_term_tax_on_gains], ?_⟩
  · by_cases hn : cfg.nii <;> simp [calculate_short_term_tax_on_gains, hn] <;> ring
  · by_cases hn : cfg.nii <;> simp [calculate_long_term_tax_on_gains, hn] <;> ring
  · norm_num [calculate_short_term_tax_on_gains]

/-- C8: the holding-period rule of `show_portfolio` classifies a lot
long-term exactly when the elapsed day count strictly exceeds 365 (365
days is short-term, 366 is long-term), and the per-lot after-tax
computation taxes a positive gain with the long-term calculator exactly in
the long-term case and with the short-term calculator otherwise. -/
theorem holding_period_strict_365 (lotDate today : ℤ) :
    (classifyLot lotDate today = HoldingClass.longTerm ↔ 365 < today - lotDate) ∧
    classifyLot lotDate (lotDate + 365) = HoldingClass.shortTerm ∧
    classifyLot lotDate (lotDate + 366) = HoldingClass.longTerm ∧
    (∀ (cfg : TaxConfig) (currentPrice : ℚ) (lot : Lot),
      lot.date = lotDate → 0 < lotGain currentPrice lot →
      lotAfterTax cfg today currentPrice lot =
        (if classifyLot lotDate today = HoldingClass.longTerm then
          lotGain currentPrice lot -
            (calculate_long_term_tax_on_gains cfg (lotGain currentPrice lot)).total
        else
          lotGain currentPrice lot -
            (calculate_short_term_tax_on_gains cfg (lotGain currentPrice lot)).total)) := by
  refine ⟨?_, ?_, ?_, ?_⟩
  · unfold classifyLot
    by_cases hd : 365 < today - lotDate
    · simp [hd]
    · simp [hd]
  · simp [classifyLot]
  · simp [classifyLot]
  · intro cfg currentPrice lot hdate hg
    subst hdate
    unfold lotAfterTax classifyLot
    by_cases hd : 365 < today - lot.date
    · simp [hd, hg]
    · simp [hd, hg]

/-- C8 witness: with the lot acquired on day 0, day 365 is short-term,
day 366 is long-term, and a lot with positive gain evaluated on day 366 is
taxed with the long-term calculator. -/
theorem holding_period_strict_365_witness :
    classifyLot 0 365 = HoldingClass.shortTerm ∧
    classifyLot 0 366 = HoldingClass.longTerm ∧
    (0 : ℚ) < lotGain 20 ⟨1, 10, 0⟩ ∧
    lotAfterTax defaultTaxConfig 366 20 ⟨1, 10, 0⟩ =
      (if classifyLot 0 366 = HoldingClass.longTerm then
        lotGain 20 ⟨1, 10, 0⟩ -
          (calculate_long_term_tax_on_gains defaultTaxConfig (lotGain 20 ⟨1, 10, 0⟩)).total
      else
        lotGain 20 ⟨1, 10, 0⟩ -
          (calculate_short_term_tax_on_gains defaultTaxConfig (lotGain 20 ⟨1, 10, 0⟩)).total) := by
  have hg : (0 : ℚ) < lotGain 20 ⟨1, 10, 0⟩ := by norm_num [lotGain]
  have h365 := (holding_period_strict_365 0 365).2.1
  have h366 := (holding_period_strict_365 0 366).2.2.1
  have htax := (holding_period_strict_365 0 366).2.2.2 defaultTaxConfig 20 ⟨1, 10, 0⟩ rfl hg
  exact ⟨by simpa using h365, by simpa using h366, hg, htax⟩

/-- C5: the spec's FIFO examples.  Buy 10@$10 (day 1), buy 10@$20
(day 32), sell 15 (day 60): the sell consumes the oldest lot fully and 5
shares of the second, leaving exactly one lot of 5 shares at $20, and the
snapshot reports net 5 at average cost $20.  Buy 10@$10, sell 4: one
remaining lot of 6 shares at $10. -/
theorem fifo_consumes_oldest_first_examples :
    getRemainingLots [("AAPL", [⟨10, 10, 1, some "BUY"⟩, ⟨10, 20, 32, some "BUY"⟩,
      ⟨15, 30, 60, some "SELL"⟩])] "AAPL" = [⟨5, 20, 32⟩] ∧
    portfolioSnapshot [("AAPL", [⟨10, 10, 1, some "BUY"⟩, ⟨10, 20, 32, some "BUY"⟩,
      ⟨15, 30, 60, some "SELL"⟩])] = [⟨"AAPL", 5, 20⟩] ∧
    getRemainingLots [("X", [⟨10, 10, 1, some "BUY"⟩, ⟨4, 12, 2, some "SELL"⟩])] "X" =
      [⟨6, 10, 1⟩] := by
  refine ⟨?_, ?_, ?_⟩
  · norm_num [getRemainingLots, resolveLots, sortByDate, applyTx, consumeLots, txIsBuy,
      lookup, (show upper "AAPL" = "AAPL" by decide), (show ("SELL" : String) ≠ "BUY" by decide)]
  · norm_num [portfolioSnapshot, snapshotIdx, portfolioEntries, indexed, portRel,
      List.filterMap_cons, getRemainingLots, resolveLots, sortByDate, applyTx, consumeLots,
      txIsBuy, lookup, lotShares, lotCost, lotAvgPrice,
      (show upper "AAPL" = "AAPL" by decide), (show ("SELL" : String) ≠ "BUY" by decide)]
  · norm_num [getRemainingLots, resolveLots, sortByDate, applyTx, consumeLots, txIsBuy,
      lookup, (show upper "X" = "X" by decide), (show ("SELL" : String) ≠ "BUY" by decide)]

lemma mem_portfolioEntries {h : Holdings} {e : PortEntry} (he : e ∈ portfolioEntries h) :
    getRemainingLots h e.ticker ≠ [] ∧
    e.shares = lotShares (getRemainingLots h e.ticker) ∧
    e.avg_price = lotAvgPrice (getRemainingLots h e.ticker) := by
  unfold portfolioEntries at he
  rw [List.mem_filterMap] at he
  obtain ⟨p, _, hpe⟩ := he
  dsimp only at hpe
  by_cases hl : getRemainingLots h p.1 = []
  · rw [if_pos hl] at hpe
    exact absurd hpe (by simp)
  · rw [if_neg hl] at hpe
    have he2 := Option.some.inj hpe
    subst he2
    exact ⟨hl, rfl, rfl⟩

lemma mem_indexed : ∀ (l : List PortEntry) (i : Nat) (p : Nat × PortEntry),
    p ∈ indexed i l → p.2 ∈ l := by
  intro l
  induction l with
  | nil => intro i p hp; simp [indexed] at hp
  | cons e rest ih =>
    intro i p hp
    rw [indexed] at hp
    rcases List.mem_cons.mp hp with h1 | h2
    · rw [h1]
      exact List.mem_cons_self e rest
    · exact List.mem_cons_of_mem _ (ih (i + 1) p h2)

lemma mem_snapshot {h : Holdings} {e : PortEntry} (he : e ∈ portfolioSnapshot h) :
    e ∈ portfolioEntries h := by
  unfold portfolioSnapshot at he
  rw [List.mem_map] at he
  obtain ⟨p, hp, hpe⟩ := he
  have hp2 : p ∈ indexed 0 (portfolioEntries h) :=
    (List.perm_insertionSort portRel _).mem_iff.mp hp
  rw [← hpe]
  exact mem_indexed _ 0 p hp2

/-- C2 (as amended): the portfolio snapshot reports, for each of its
entries, exactly the FIFO quantities — shares equal to the sum of the
remaining lots' shares and average cost equal to the remaining lots'
cost-weighted mean (defined as 0 when the remaining share total is 0).
`get_holding`, however, does not use the FIFO lots: whenever it returns a
position, its share count is positive and its average cost is total buy
cost divided by total buy shares over all BUY transactions (0-guarded),
which differs from the FIFO mean once a sell has consumed part of the
oldest lot (see the counterexample). -/
theorem snapshot_avg_fifo_holding_avg_buys (h : Holdings) (ticker : String) :
    (∀ e ∈ portfolioSnapshot h,
      e.shares = lotShares (getRemainingLots h e.ticker) ∧
      e.avg_price = lotAvgPrice (getRemainingLots h e.ticker)) ∧
    (∀ pos : Position, getHolding h ticker = some pos →
      0 < pos.shares ∧
      pos.avg_price =
        (if 0 < (buyStats (lookup h (upper ticker))).1 then
          (buyStats (lookup h (upper ticker))).2.1 / (buyStats (lookup h (upper ticker))).1
        else 0)) := by
  constructor
  · intro e he
    exact (mem_portfolioEntries (mem_snapshot he)).2
  · intro pos hpos
    unfold getHolding at hpos
    by_cases hempty : lookup h (upper ticker) = []
    · rw [if_pos hempty] at hpos
      exact absurd hpos (by simp)
    · rw [if_neg hempty] at hpos
      dsimp only at hpos
      by_cases hnet : (buyStats (lookup h (upper ticker))).1 -
          (buyStats (lookup h (upper ticker))).2.2 ≤ 0
      · rw [if_pos hnet] at hpos
        exact absurd hpos (by simp)
      · rw [if_neg hnet] at hpos
        have hp := Option.some.inj hpos
        rw [← hp]
        exact ⟨by simpa using lt_of_not_ge hnet, rfl⟩

/-- C2 witness: on the log (buy 10@$10, buy 10@$20, sell 15) the snapshot
entry carries the FIFO values 5 shares at $20, while `get_holding` returns
5 shares at the all-buys average $15. -/
theorem snapshot_avg_fifo_holding_avg_buys_witness :
    (⟨"AAPL", 5, 20⟩ : PortEntry) ∈ portfolioSnapshot
      [("AAPL", [⟨10, 10, 1, some "BUY"⟩, ⟨10, 20, 32, some "BUY"⟩,
        ⟨15, 30, 60, some "SELL"⟩])] ∧
    getHolding [("AAPL", [⟨10, 10, 1, some "BUY"⟩, ⟨10, 20, 32, some "BUY"⟩,
      ⟨15, 30, 60, some "SELL"⟩])] "AAPL" = some ⟨5, 15⟩ ∧
    (5 : ℚ) = lotShares (getRemainingLots
      [("AAPL", [⟨10, 10, 1, some "BUY"⟩, ⟨10, 20, 32, some "BUY"⟩,
        ⟨15, 30, 60, some "SELL"⟩])] "AAPL") ∧
    (20 : ℚ) = lotAvgPrice (getRemainingLots
      [("AAPL", [⟨10, 10, 1, some "BUY"⟩, ⟨10, 20, 32, some "BUY"⟩,
        ⟨15, 30, 60, some "SELL"⟩])] "AAPL") ∧
    (0 : ℚ) < (5 : ℚ) := by
  have hsnap : portfolioSnapshot
      [("AAPL", [⟨10, 10, 1, some "BUY"⟩, ⟨10, 20, 32, some "BUY"⟩,
        ⟨15, 30, 60, some "SELL"⟩])] = [⟨"AAPL", 5, 20⟩] := by
    norm_num [portfolioSnapshot, snapshotIdx, portfolioEntries, indexed, portRel,
      List.filterMap_cons, getRemainingLots, resolveLots, sortByDate, applyTx, consumeLots,
      txIsBuy, lookup, lotShares, lotCost, lotAvgPrice,
      (show upper "AAPL" = "AAPL" by decide), (show ("SELL" : String) ≠ "BUY" by decide)]
  have hmem : (⟨"AAPL", 5, 20⟩ : PortEntry) ∈ portfolioSnapshot
      [("AAPL", [⟨10, 10, 1, some "BUY"⟩, ⟨10, 20, 32, some "BUY"⟩,
        ⟨15, 30, 60, some "SELL"⟩])] := by
    rw [hsnap]
    exact List.mem_singleton.mpr rfl
  have hhold : getHolding [("AAPL", [⟨10, 10, 1, some "BUY"⟩, ⟨10, 20, 32, some "BUY"⟩,
      ⟨15, 30, 60, some "SELL"⟩])] "AAPL" = some ⟨5, 15⟩ := by
    norm_num [getHolding, buyStats, lookup, txIsBuy,
      (show upper "AAPL" = "AAPL" by decide), (show ("SELL" : String) ≠ "BUY" by decide)]
    intro hx
    exact absurd hx (by simp)
  have hmain := (snapshot_avg_fifo_holding_avg_buys
    [("AAPL", [⟨10, 10, 1, some "BUY"⟩, ⟨10, 20, 32, some "BUY"⟩,
      ⟨15, 30, 60, some "SELL"⟩])] "AAPL").1 ⟨"AAPL", 5, 20⟩ hmem
  have hpos := (snapshot_avg_fifo_holding_avg_buys
    [("AAPL", [⟨10, 10, 1, some "BUY"⟩, ⟨10, 20, 32, some "BUY"⟩,
      ⟨15, 30, 60, some "SELL"⟩])] "AAPL").2 ⟨5, 15⟩ hhold
  exact ⟨hmem, hhold, hmain.1, hmain.2, hpos.1⟩

/-- C2 counterexample: on the log (buy 10@$10, buy 10@$20, sell 15) the
net position is positive, yet `get_holding` reports average cost $15
(total buy cost / total buy shares) while the FIFO remaining-lot mean is
$20 — so not every position-reporting view reports the FIFO weighted
mean. -/
theorem holding_avg_not_fifo_mean_cex :
    0 < getNetShares [("AAPL", [⟨10, 10, 1, some "BUY"⟩, ⟨10, 20, 32, some "BUY"⟩,
      ⟨15, 30, 60, some "SELL"⟩])] "AAPL" ∧
    (getHolding [("AAPL", [⟨10, 10, 1, some "BUY"⟩, ⟨10, 20, 32, some "BUY"⟩,
      ⟨15, 30, 60, some "SELL"⟩])] "AAPL").map Position.avg_price ≠
    some (lotAvgPrice (getRemainingLots
      [("AAPL", [⟨10, 10, 1, some "BUY"⟩, ⟨10, 20, 32, some "BUY"⟩,
        ⟨15, 30, 60, some "SELL"⟩])] "AAPL")) := by
  constructor
  · norm_num [getNetShares, netOfTxs, lookup, txIsBuy,
      (show upper "AAPL" = "AAPL" by decide), (show ("SELL" : String) ≠ "BUY" by decide)]
  · norm_num [getHolding, buyStats, lookup, txIsBuy, getRemainingLots, resolveLots,
      sortByDate, applyTx, consumeLots, lotShares, lotCost, lotAvgPrice,
      (show upper "AAPL" = "AAPL" by decide), (show ("SELL" : String) ≠ "BUY" by decide)]

/-- C7: every entry of the portfolio snapshot belongs to a symbol whose
FIFO resolution left at least one lot (symbols with no remaining lots,
such as fully sold ones, are absent — never shown as a zero row), and the
snapshot rows are exactly the per-symbol aggregates ordered by share count
descending with ties kept in symbol insertion order (the sort respects
`portRel` on the insertion-indexed rows, and is a permutation of those
rows). -/
theorem snapshot_excludes_empty_and_sorted (h : Holdings) :
    (∀ e ∈ portfolioSnapshot h, getRemainingLots h e.ticker ≠ []) ∧
    (snapshotIdx h).Sorted portRel ∧
    (snapshotIdx h).Perm (indexed 0 (portfolioEntries h)) ∧
    portfolioSnapshot h = (snapshotIdx h).map Prod.snd := by
  refine ⟨?_, List.sorted_insertionSort portRel _, List.perm_insertionSort portRel _, rfl⟩
  intro e he
  exact (mem_portfolioEntries (mem_snapshot he)).1

/-- C7 witness: with positions A:1, B:3, C:3 (inserted in that order) the
snapshot lists B before C (equal shares, insertion order kept) before A,
and the theorem applies to the entry for B, whose lots are nonempty. -/
theorem snapshot_excludes_empty_and_sorted_witness :
    portfolioSnapshot [("A", [⟨1, 10, 1, some "BUY"⟩]), ("B", [⟨3, 10, 1, some "BUY"⟩]),
      ("C", [⟨3, 10, 1, some "BUY"⟩])] =
      [⟨"B", 3, 10⟩, ⟨"C", 3, 10⟩, ⟨"A", 1, 10⟩] ∧
    getRemainingLots [("A", [⟨1, 10, 1, some "BUY"⟩]), ("B", [⟨3, 10, 1, some "BUY"⟩]),
      ("C", [⟨3, 10, 1, some "BUY"⟩])] "B" ≠ [] := by
  have hsnap : portfolioSnapshot [("A", [⟨1, 10, 1, some "BUY"⟩]), ("B", [⟨3, 10, 1, some "BUY"⟩]),
      ("C", [⟨3, 10, 1, some "BUY"⟩])] =
      [⟨"B", 3, 10⟩, ⟨"C", 3, 10⟩, ⟨"A", 1, 10⟩] := by
    norm_num [portfolioSnapshot, snapshotIdx, portfolioEntries, indexed, portRel,
      List.filterMap_cons, getRemainingLots, resolveLots, sortByDate, applyTx, consumeLots,
      txIsBuy, lookup, lotShares, lotCost, lotAvgPrice,
      (show upper "A" = "A" by decide), (show upper "B" = "B" by decide),
      (show upper "C" = "C" by decide),
      (show ("A" : String) ≠ "B" by decide), (show ("B" : String) ≠ "A" by decide),
      (show ("A" : String) ≠ "C" by decide), (show ("C" : String) ≠ "A" by decide),
      (show ("B" : String) ≠ "C" by decide), (show ("C" : String) ≠ "B" by decide)]
  have hmem : (⟨"B", 3, 10⟩ : PortEntry) ∈
      portfolioSnapshot [("A", [⟨1, 10, 1, some "BUY"⟩]), ("B", [⟨3, 10, 1, some "BUY"⟩]),
        ("C", [⟨3, 10, 1, some "BUY"⟩])] := by
    rw [hsnap]
    exact List.mem_cons_self _ _
  exact ⟨hsnap,
    (snapshot_excludes_empty_and_sorted _).1 ⟨"B", 3, 10⟩ hmem⟩

lemma txIsBuy_normalizeTx (tx : Tx) : txIsBuy (normalizeTx tx) = txIsBuy tx := by
  cases tx with
  | mk s p d ty => cases ty <;> simp [normalizeTx, txIsBuy]

lemma applyTx_normalizeTx (lots : List Lot) (tx : Tx) :
    applyTx lots (normalizeTx tx) = applyTx lots tx := by
  unfold applyTx
  rw [txIsBuy_normalizeTx]
  cases tx with
  | mk s p d ty => cases ty <;> simp [normalizeTx]

lemma normalizeTx_date (tx : Tx) : (normalizeTx tx).date = tx.date := rfl

lemma orderedInsert_map_normalizeTx (tx : Tx) : ∀ l : List Tx,
    List.orderedInsert (fun a b => a.date ≤ b.date) (normalizeTx tx) (l.map normalizeTx) =
      (List.orderedInsert (fun a b => a.date ≤ b.date) tx l).map normalizeTx := by
  intro l
  induction l with
  | nil => simp
  | cons b rest ih =>
    by_cases hd : tx.date ≤ b.date
    · simp [List.orderedInsert, normalizeTx_date, hd]
    · simp [List.orderedInsert, normalizeTx_date, hd, ih]

lemma sortByDate_map_normalizeTx (txs : List Tx) :
    sortByDate (txs.map normalizeTx) = (sortByDate txs).map normalizeTx := by
  induction txs with
  | nil => simp [sortByDate]
  | cons tx rest ih =>
    unfold sortByDate at *
    simp only [List.map_cons, List.insertionSort]
    rw [ih, orderedInsert_map_normalizeTx]

lemma foldl_applyTx_map_normalizeTx : ∀ (l : List Tx) (lots : List Lot),
    (l.map normalizeTx).foldl applyTx lots = l.foldl applyTx lots := by
  intro l
  induction l with
  | nil => intro lots; rfl
  | cons tx rest ih =>
    intro lots
    simp only [List.map_cons, List.foldl_cons, applyTx_normalizeTx]
    exact ih _

lemma resolveLots_map_normalizeTx (txs : List Tx) :
    resolveLots (txs.map normalizeTx) = resolveLots txs := by
  unfold resolveLots
  rw [sortByDate_map_normalizeTx, foldl_applyTx_map_normalizeTx]

lemma normalizeTx_shares (tx : Tx) : (normalizeTx tx).shares = tx.shares := rfl

lemma normalizeTx_price_paid (tx : Tx) : (normalizeTx tx).price_paid = tx.price_paid := rfl

lemma netOfTxs_map_normalizeTx (txs : List Tx) :
    netOfTxs (txs.map normalizeTx) = netOfTxs txs := by
  have haux : ∀ (l : List Tx) (a : ℚ),
      (l.map normalizeTx).foldl
        (fun acc tx => if txIsBuy tx then acc + tx.shares else acc - tx.shares) a =
      l.foldl (fun acc tx => if txIsBuy tx then acc + tx.shares else acc - tx.shares) a := by
    intro l
    induction l with
    | nil => intro a; rfl
    | cons tx rest ih =>
      intro a
      simp only [List.map_cons, List.foldl_cons, txIsBuy_normalizeTx, normalizeTx_shares]
      exact ih _
  exact haux txs 0

lemma buyStats_map_normalizeTx (txs : List Tx) :
    buyStats (txs.map normalizeTx) = buyStats txs := by
  have haux : ∀ (l : List Tx) (a : ℚ × ℚ × ℚ),
      (l.map normalizeTx).foldl
        (fun acc tx =>
          if txIsBuy tx then (acc.1 + tx.shares, acc.2.1 + tx.shares * tx.price_paid, acc.2.2)
          else (acc.1, acc.2.1, acc.2.2 + tx.shares)) a =
      l.foldl
        (fun acc tx =>
          if txIsBuy tx then (acc.1 + tx.shares, acc.2.1 + tx.shares * tx.price_paid, acc.2.2)
          else (acc.1, acc.2.1, acc.2.2 + tx.shares)) a := by
    intro l
    induction l with
    | nil => intro a; rfl
    | cons tx rest ih =>
      intro a
      simp only [List.map_cons, List.foldl_cons, txIsBuy_normalizeTx, normalizeTx_shares,
        normalizeTx_price_paid]
      exact ih _
  exact haux txs (0, 0, 0)

lemma lookup_normalizeHoldings (h : Holdings) (t : String) :
    lookup (normalizeHoldings h) t = (lookup h t).map normalizeTx := by
  induction h with
  | nil => simp [normalizeHoldings, lookup]
  | cons p rest ih =>
    rcases p with ⟨k, txs⟩
    by_cases hb : (k == t) = true
    · simp only [normalizeHoldings, List.map_cons]
      rw [lookup_cons, lookup_cons, if_pos hb, if_pos hb]
    · simp only [normalizeHoldings, List.map_cons]
      rw [lookup_cons, lookup_cons, if_neg hb, if_neg hb]
      simpa [normalizeHoldings] using ih

/-- C10: a stored transaction whose `'type'` key is missing behaves
exactly like one whose type is explicitly `'BUY'`: replacing every missing
type by `'BUY'` changes neither the signed net-share count, nor the FIFO
remaining lots, nor the holding aggregation; and on a concrete
missing-type record, net counts it positively, resolution opens a lot for
it, and the holding reports it as a purchase. -/
theorem missing_type_defaults_to_buy (h : Holdings) (ticker : String) :
    getNetShares (normalizeHoldings h) ticker = getNetShares h ticker ∧
    getRemainingLots (normalizeHoldings h) ticker = getRemainingLots h ticker ∧
    getHolding (normalizeHoldings h) ticker = getHolding h ticker ∧
    getNetShares [("A", [⟨3, 7, 0, none⟩])] "A" = 3 ∧
    getRemainingLots [("A", [⟨3, 7, 0, none⟩])] "A" = [⟨3, 7, 0⟩] ∧
    getHolding [("A", [⟨3, 7, 0, none⟩])] "A" = some ⟨3, 7⟩ := by
  refine ⟨?_, ?_, ?_, ?_, ?_, ?_⟩
  · unfold getNetShares
    rw [lookup_normalizeHoldings, netOfTxs_map_normalizeTx]
  · unfold getRemainingLots
    rw [lookup_normalizeHoldings, resolveLots_map_normalizeTx]
  · unfold getHolding
    rw [lookup_normalizeHoldings]
    dsimp only
    rw [buyStats_map_normalizeTx]
    by_cases hempty : lookup h (upper ticker) = []
    · simp [hempty]
    · rw [if_neg (by simpa using hempty), if_neg hempty]
  · norm_num [getNetShares, netOfTxs, lookup, txIsBuy, (show upper "A" = "A" by decide)]
  · norm_num [getRemainingLots, resolveLots, sortByDate, applyTx, txIsBuy, lookup,
      (show upper "A" = "A" by decide)]
  · norm_num [getHolding, buyStats, lookup, txIsBuy, (show upper "A" = "A" by decide)]

end StockTracker
